import Mathlib

/-!
# Verification of the SharePoint document-templating engine

Shallow embedding of the repository's templating core
(`src/sharepoint_utils.py` and the per-row pipeline in `src/main.py`),
together with theorems settling the specification claims about it.

Conventions of the embedding:
* Python strings are modelled as Lean `String` / `List Char`.
* Unicode-dependent primitives (`str.lower`, the NFKD decomposition used by
  `unicodedata.normalize('NFKD', ·)`, the whitespace class of `\s` and
  `str.split()`) are modelled on the fragment of Unicode exercised by this
  development; the tables below name that fragment explicitly.
* Fallible steps return `Option`; a `while` loop whose termination is not
  guaranteed is given explicit fuel, `none` meaning the loop is still running
  after `fuel` iterations.
-/

namespace SharepointUtils

/-! ## Python string primitives -/

/-- The whitespace class shared by Python's `str.split()` (no argument) and by
`\s` in a `str` regular expression: ASCII whitespace plus the Unicode
whitespace code points. -/
def pyWhitespace : List Char :=
  [' ', '\t', '\n', '\r', '\x0b', '\x0c',
   '\x1c', '\x1d', '\x1e', '\x1f', '\x85', '\xa0',
   '\u1680', '\u2000', '\u2001', '\u2002', '\u2003', '\u2004', '\u2005',
   '\u2006', '\u2007', '\u2008', '\u2009', '\u200a',
   '\u2028', '\u2029', '\u202f', '\u205f', '\u3000']

/-- Whether a character is whitespace in Python's sense. -/
def isPySpace (c : Char) : Bool := pyWhitespace.contains c

/-- `string.punctuation` from the Python standard library, in its order:
the 32 ASCII punctuation characters. -/
def pyPunctuation : List Char :=
  ['!', '\"', '#', '$', '%', '&', '\'', '(', ')', '*', '+', ',', '-', '.', '/',
   ':', ';', '<', '=', '>', '?', '@', '[', '\\', ']', '^', '_', '\x60',
   '\x7b', '|', '\x7d', '~']

/-- Python `str.lower` on one character, modelled on the ASCII fragment
(`A`-`Z` map to `a`-`z`; every character outside that range is returned
unchanged).  All strings lower-cased in this development are ASCII at that
point (the source lower-cases after its ASCII fold). -/
def pyLowerChar (c : Char) : Char :=
  if 65 ≤ c.toNat ∧ c.toNat ≤ 90 then Char.ofNat (c.toNat + 32) else c

/-- Python `str.lower`, character by character. -/
def pyLower (l : List Char) : List Char := l.map pyLowerChar

/-- The NFKD decomposition of one character, restricted to the characters
this development touches: accented Latin letters decompose into the base
letter followed by a combining mark, the ligature `œ` decomposes into `oe`;
every other character in our fragment is its own decomposition. -/
def nfkdChar (c : Char) : List Char :=
  match c with
  | '\u00e0' => ['a', '\u0300'] | '\u00e2' => ['a', '\u0302'] | '\u00e4' => ['a', '\u0308']
  | '\u00e7' => ['c', '\u0327']
  | '\u00e9' => ['e', '\u0301'] | '\u00e8' => ['e', '\u0300'] | '\u00ea' => ['e', '\u0302']
  | '\u00eb' => ['e', '\u0308']
  | '\u00ee' => ['i', '\u0302'] | '\u00ef' => ['i', '\u0308']
  | '\u00f4' => ['o', '\u0302'] | '\u00f6' => ['o', '\u0308']
  | '\u00f9' => ['u', '\u0300'] | '\u00fb' => ['u', '\u0302'] | '\u00fc' => ['u', '\u0308']
  | '\u00c0' => ['A', '\u0300'] | '\u00c2' => ['A', '\u0302'] | '\u00c7' => ['C', '\u0327']
  | '\u00c9' => ['E', '\u0301'] | '\u00c8' => ['E', '\u0300'] | '\u00ca' => ['E', '\u0302']
  | '\u00ce' => ['I', '\u0302'] | '\u00d4' => ['O', '\u0302'] | '\u00db' => ['U', '\u0302']
  | '\u0153' => ['o', 'e'] | '\u0152' => ['O', 'E']
  | _ => [c]

/-- `unicodedata.normalize('NFKD', text).encode('ASCII', 'ignore').decode('ASCII')`:
decompose each character, then drop every non-ASCII code point (this drops
the combining marks produced by the decomposition, and any other non-ASCII
character). -/
def nfkdAsciiFold (l : List Char) : List Char :=
  (l.flatMap nfkdChar).filter (fun c => c.toNat < 128)

/-- `text.replace(old, new)` when `old` and `new` are single characters. -/
def replaceCharAll (l : List Char) (old new : Char) : List Char :=
  l.map (fun c => if c == old then new else c)

/-- The loop `for char in string.punctuation: text = text.replace(char, ' ')`:
successively replace each punctuation character by a space. -/
def punctToSpace (l : List Char) : List Char :=
  pyPunctuation.foldl (fun acc ch => replaceCharAll acc ch ' ') l

/-- Helper for `pySplit`: accumulates the current word (reversed). -/
def pySplitGo (acc : List Char) : List Char → List (List Char)
  | [] => if acc.isEmpty then [] else [acc.reverse]
  | c :: t =>
    if isPySpace c then
      if acc.isEmpty then pySplitGo [] t else acc.reverse :: pySplitGo [] t
    else
      pySplitGo (c :: acc) t

/-- Python `text.split()`: split on runs of whitespace, discarding empty
pieces (hence also leading and trailing whitespace). -/
def pySplit (l : List Char) : List (List Char) := pySplitGo [] l

/-- Python `' '.join(words)`. -/
def joinSpace : List (List Char) → List Char
  | [] => []
  | [w] => w
  | w :: ws => w ++ ' ' :: joinSpace ws

/-! ## The values `normalize_string` receives

`normalize_string` branches on `isinstance(text, str)`.  A non-string Python
value is used by the function only through `str(text)`, so it is modelled by
its string representation. -/

/-- A Python value as seen by `normalize_string`: either a genuine string, or
a non-string value represented by its `str()` rendering. -/
inductive PyVal where
  | str (s : String)
  | other (repr : String)
deriving DecidableEq

/-- `str(text)`: the identity on strings, the stored representation
otherwise. -/
def pyStr : PyVal → String
  | .str s => s
  | .other r => r

/-- The normalization pipeline applied by the source to a value that *is* a
string: NFKD-decompose and drop non-ASCII, lower-case, replace each
punctuation character with a space, then `' '.join(text.split())` (collapse
whitespace runs and trim). -/
def normalizeSteps (s : String) : String :=
  String.mk (joinSpace (pySplit (punctToSpace (pyLower (nfkdAsciiFold s.data)))))

/-- `normalize_string` from `src/sharepoint_utils.py` (lines 289-303).
A non-string input short-circuits to `str(text).lower()`; a string input goes
through the full pipeline. -/
def normalize_string (v : PyVal) : String :=
  match v with
  | .other r => String.mk (pyLower r.data)
  | .str s => normalizeSteps s

/-- Modelled from the claim's words (claim C1): coerce *any* value to a
string via its string representation, then apply all normalization steps. -/
def normalizeClaim (v : PyVal) : String :=
  normalizeSteps (pyStr v)

/-- Normalization of a plain string (the common case in the rest of the
engine, where column names and tags are strings). -/
def normalizeStr (s : String) : String := normalize_string (.str s)

/-! ## `format_date`

The source checks `re.match(r'^\d{4}-\d{2}-\d{2}\s\d{2}:\d{2}:\d{2}$', value)`
and, on a match, converts through
`datetime.strptime(value, '%Y-%m-%d %H:%M:%S').strftime('%d-%m-%Y')`,
returning the original value when `strptime`/`strftime` raise.

Modelling notes, each traceable to CPython behaviour:
* `\s` matches any whitespace character, not only `' '` (`isPySpace`);
* `\d` is modelled on its ASCII fragment `0`-`9` (`Char.isDigit`);
* `$` also matches just before a single trailing newline, so a 20-character
  value ending in `'\n'` passes the structural check; `strptime` then fails
  on the unconsumed newline and the value is returned unchanged;
* a space in a `strptime` format string matches one or more whitespace
  characters (CPython compiles it to `\s+`), so the parse accepts the same
  whitespace the structural check accepted;
* `strptime('%S')` accepts `60` and `61`, but the `datetime` constructor then
  rejects seconds outside `0..59` (and years outside `1..9999`), raising —
  so the overall parse succeeds exactly on valid calendar timestamps;
* `strftime` zero-pads `%d` and `%m`; on the glibc platform the code targets,
  `%Y` prints the year without padding (4 digits for every year ≥ 1000). -/

/-- Python leap-year rule (`calendar.isleap`, as used by `datetime`). -/
def isLeap (y : Nat) : Bool := y % 4 == 0 && (y % 100 != 0 || y % 400 == 0)

/-- Days in a month, as validated by the `datetime` constructor. -/
def daysInMonth (y m : Nat) : Nat :=
  if m == 2 then (if isLeap y then 29 else 28)
  else if m == 4 || m == 6 || m == 9 || m == 11 then 30
  else 31

/-- The structural check of the regular expression body
`\d{4}-\d{2}-\d{2}\s\d{2}:\d{2}:\d{2}` on a whole string. -/
def baseDatePattern : List Char → Bool
  | [y1, y2, y3, y4, s1, mo1, mo2, s2, d1, d2, sp,
     h1, h2, c1, mi1, mi2, c2, se1, se2] =>
    y1.isDigit && y2.isDigit && y3.isDigit && y4.isDigit &&
    s1 == '-' && mo1.isDigit && mo2.isDigit && s2 == '-' &&
    d1.isDigit && d2.isDigit && isPySpace sp &&
    h1.isDigit && h2.isDigit && c1 == ':' && mi1.isDigit && mi2.isDigit &&
    c2 == ':' && se1.isDigit && se2.isDigit
  | _ => false

/-- `re.match(r'^...$', value)`: the anchored pattern also matches when the
string is the pattern followed by one final newline. -/
def matchesDatePattern (l : List Char) : Bool :=
  baseDatePattern l || (l.getLast? == some '\n' && baseDatePattern l.dropLast)

/-- Numeric value of a digit character. -/
def digitVal (c : Char) : Nat := c.toNat - 48

/-- `datetime.strptime(value, '%Y-%m-%d %H:%M:%S')` followed by the
`datetime` constructor's range validation: returns the six fields when the
value is a valid calendar timestamp, `none` when `strptime` (or the
constructor) raises. -/
def strptimeYMDHMS : List Char → Option (Nat × Nat × Nat × Nat × Nat × Nat)
  | [y1, y2, y3, y4, s1, mo1, mo2, s2, d1, d2, sp,
     h1, h2, c1, mi1, mi2, c2, se1, se2] =>
    if y1.isDigit && y2.isDigit && y3.isDigit && y4.isDigit &&
       s1 == '-' && mo1.isDigit && mo2.isDigit && s2 == '-' &&
       d1.isDigit && d2.isDigit && isPySpace sp &&
       h1.isDigit && h2.isDigit && c1 == ':' && mi1.isDigit && mi2.isDigit &&
       c2 == ':' && se1.isDigit && se2.isDigit then
      let y := ((digitVal y1 * 10 + digitVal y2) * 10 + digitVal y3) * 10 + digitVal y4
      let mo := digitVal mo1 * 10 + digitVal mo2
      let d := digitVal d1 * 10 + digitVal d2
      let h := digitVal h1 * 10 + digitVal h2
      let mi := digitVal mi1 * 10 + digitVal mi2
      let se := digitVal se1 * 10 + digitVal se2
      if 1 ≤ y && 1 ≤ mo && mo ≤ 12 && 1 ≤ d && d ≤ daysInMonth y mo &&
         h ≤ 23 && mi ≤ 59 && se ≤ 59 then
        some (y, mo, d, h, mi, se)
      else none
    else none
  | _ => none

/-- Two-digit zero-padded rendering (`strftime` `%d` / `%m`). -/
def pad2 (n : Nat) : List Char :=
  if n < 10 then ['0', Nat.digitChar n]
  else [Nat.digitChar (n / 10), Nat.digitChar (n % 10)]

/-- `date_obj.strftime('%d-%m-%Y')`; `%Y` prints the year unpadded (glibc). -/
def renderDMY (y mo d : Nat) : List Char :=
  pad2 d ++ '-' :: pad2 mo ++ '-' :: (toString y).data

/-- `format_date` from `src/sharepoint_utils.py` (lines 306-321): on a
structural match, re-render as `DD-MM-YYYY`; if the parse raises despite the
match, or there is no match, return the value unchanged.  (The source first
coerces a non-string argument with `str(value)`; inside the engine every
argument is already a string.) -/
def format_date (s : String) : String :=
  if matchesDatePattern s.data then
    match strptimeYMDHMS s.data with
    | some (y, mo, d, _, _, _) => String.mk (renderDMY y mo d)
    | none => s
  else s

/-- Modelled from the claim's words (claim C2): the structural pattern
`YYYY-MM-DD HH:MM:SS` with "four-digit year, two-digit month/day, **a
space**, two-digit hour:minute:second". -/
def specDatePattern : List Char → Bool
  | [y1, y2, y3, y4, s1, mo1, mo2, s2, d1, d2, sp,
     h1, h2, c1, mi1, mi2, c2, se1, se2] =>
    y1.isDigit && y2.isDigit && y3.isDigit && y4.isDigit &&
    s1 == '-' && mo1.isDigit && mo2.isDigit && s2 == '-' &&
    d1.isDigit && d2.isDigit && sp == ' ' &&
    h1.isDigit && h2.isDigit && c1 == ':' && mi1.isDigit && mi2.isDigit &&
    c2 == ':' && se1.isDigit && se2.isDigit
  | _ => false

/-! ## The placeholder loop of `process_run`

`process_run` (lines 374-383) does, for each column `key` of the row,
`placeholder = f"${\x7bkey\x7d}"` and then
`while placeholder in run.text: run.text = parts[0] + str(value) + parts[1]`
where `parts = run.text.split(placeholder, 1)` splits at the *first*
occurrence.  The `while` loop carries no termination guarantee, so it is
modelled with explicit fuel. -/

/-- The literal placeholder token `f"${\x7bkey\x7d}"`, i.e. `"${" + key + "}"`. -/
def token (key : String) : List Char :=
  '$' :: '\x7b' :: (key.data ++ ['\x7d'])

/-- Split a list at the first occurrence of `p` (Python
`text.split(p, 1)` when `p` occurs): `some (before, after)` with
`t = before ++ p ++ after` and `before` minimal, `none` when `p` does not
occur (Python `p in t` is false). -/
def splitFirst (p : List Char) : List Char → Option (List Char × List Char)
  | [] => if p.isPrefixOf ([] : List Char) then some ([], []) else none
  | c :: t =>
    if p.isPrefixOf (c :: t) then some ([], (c :: t).drop p.length)
    else
      match splitFirst p t with
      | some (a, b) => some (c :: a, b)
      | none => none

/-- One key's `while` loop with fuel: repeatedly replace the first occurrence
of `p` by `v`; `some` with the final text when the loop exits, `none` when
the occurrences have not been exhausted after `fuel` replacements (in the
source, the loop is still running). -/
def processKeyFuel (p v : List Char) : Nat → List Char → Option (List Char)
  | fuel, t =>
    match splitFirst p t with
    | none => some t
    | some (a, b) =>
      match fuel with
      | 0 => none
      | n + 1 => processKeyFuel p v n (a ++ v ++ b)

/-- The source's `while` loop for key `p` / replacement `v` terminates on
text `t` exactly when some amount of fuel suffices. -/
def processRunTerminates (p v t : List Char) : Prop :=
  ∃ fuel r, processKeyFuel p v fuel t = some r

/-- `process_run` over a whole row (`for key in data_row.index`): the keys
are processed in row order, each with its `while` loop; the replacement text
for a key is `str(format_date(data_row[key]))`. -/
def process_run (fuel : Nat) :
    List (String × String) → List Char → Option (List Char)
  | [], t => some t
  | (k, raw) :: rest, t =>
    match processKeyFuel (token k) (format_date raw).data fuel t with
    | none => none
    | some t' => process_run fuel rest t'

/-! ## Rows, the normalized key table, and the document model

A row is an ordered association list from column name to string value
(pandas guarantees unique column names and string values with `NaN`
replaced by `''`).  A Python `dict` built by successive assignments is
modelled as the list of assignments in order, with lookup returning the
*last* binding for a key (assignment overwrites). -/

/-- Lookup in a dict built by successive assignments: the most recent
binding for `k` wins. -/
def dictLookup (m : List (String × String)) (k : String) : Option String :=
  match m with
  | [] => none
  | (k', v) :: rest =>
    match dictLookup rest k with
    | some r => some r
    | none => if k' == k then some v else none

/-- The normalized key table (lines 324-326): built fresh from the row's
column names, in row order, by `normalized_keys[normalize_string(key)] = key`. -/
def buildNormalizedKeys (keys : List String) : List (String × String) :=
  keys.map (fun k => (normalizeStr k, k))

/-- `data_row[key]`.  In the engine the key always comes from the row's own
index, so the default is unreachable. -/
def pyGet (row : List (String × String)) (k : String) : String :=
  ((row.find? (fun p => p.1 == k)).map Prod.snd).getD ""

/-- A content-control (`w:sdt`) node: `tag` is the value of its `w:tag`
element's `w:val` attribute when both exist, and `texts` the texts of its
`w:t` descendants in document order. -/
structure Sdt where
  tag : Option String
  texts : List String
deriving DecidableEq

/-- Processing of one `w:sdt` node (lines 341-364): resolve the tag through
the normalized key table; when it resolves, overwrite the *first* `w:t` text
(the loop `break`s after one element) with `str(format_date(data_row[key]))`;
otherwise, or with no `w:t` element, leave the node untouched. -/
def fillSdt (row nk : List (String × String)) (sdt : Sdt) : Sdt :=
  match sdt.tag with
  | none => sdt
  | some tg =>
    match dictLookup nk (normalizeStr tg) with
    | none => sdt
    | some origKey =>
      match sdt.texts with
      | [] => sdt
      | _ :: ts => { sdt with texts := format_date (pyGet row origKey) :: ts }

/-! ### Exceptions inside a merge pass

Each merge pass is wrapped in one `try`/`except` (lines 331-366 and
369-398).  An exception raised while processing a node is modelled by an
oracle `faults : Nat → Bool` telling whether processing the `i`-th node
raises (in the source such exceptions come from the underlying XML/document
library, not from an explicit `raise`).  Python semantics: the first raise
aborts the rest of the `for` loop, the per-pass handler catches it, and
execution continues after the pass.  The raise is modelled as occurring
before the faulting node is mutated. -/

/-- Method 1, the form-field pass: process the `w:sdt` nodes in order; a
fault at node `i` leaves node `i` and every later node untouched. -/
def formFieldLoop (row nk : List (String × String)) (faults : Nat → Bool) :
    Nat → List Sdt → List Sdt
  | _, [] => []
  | i, sdt :: rest =>
    if faults i then sdt :: rest
    else fillSdt row nk sdt :: formFieldLoop row nk faults (i + 1) rest

/-- The form-field pass over the document's `w:sdt` nodes. -/
def formFieldPass (row nk : List (String × String)) (faults : Nat → Bool)
    (sdts : List Sdt) : List Sdt :=
  formFieldLoop row nk faults 0 sdts

/-- Method 2, the placeholder pass, over all runs (paragraph runs, then
every run of every table cell — modelled as one flat list in document
order).  A fault at run `i` leaves runs `i` onward untouched (caught by the
pass's handler); a run whose `while` loop never exits hangs the whole call,
modelled by `none`. -/
def runsLoop (row : List (String × String)) (faults : Nat → Bool) (fuel : Nat) :
    Nat → List (List Char) → Option (List (List Char))
  | _, [] => some []
  | i, r :: rest =>
    if faults i then some (r :: rest)
    else
      match process_run fuel row r with
      | none => none
      | some r' => (runsLoop row faults fuel (i + 1) rest).map (r' :: ·)

/-- The in-memory document: its content-control nodes and its text runs. -/
structure Doc where
  sdts : List Sdt
  runs : List (List Char)
deriving DecidableEq

/-- `create_word_from_template` (lines 252-407), as the pair
`(returned result, document written to the output path)`:

* a missing template returns `None` before anything is created;
* otherwise the normalized key table is built fresh from the row, the
  form-field pass runs, then the placeholder pass, and only then is the
  document saved — the write and the non-`None` return happen together;
* a diverging placeholder loop (`none` from `runsLoop`) means the call never
  reaches the save.

`templateExists` abstracts `Path(template_path).exists()`; `fuel` bounds the
placeholder loops as in `process_run`. -/
def create_word_from_template (templateExists : Bool) (doc : Doc)
    (row : List (String × String)) (faults1 faults2 : Nat → Bool)
    (fuel : Nat) : Option Doc × Option Doc :=
  if templateExists = false then (none, none)
  else
    let nk := buildNormalizedKeys (row.map Prod.fst)
    let sdts1 := formFieldPass row nk faults1 doc.sdts
    match runsLoop row faults2 fuel 0 doc.runs with
    | none => (none, none)
    | some runs1 => (some ⟨sdts1, runs1⟩, some ⟨sdts1, runs1⟩)

/-! ## The per-row pipeline of `src/main.py` (lines 70-93) -/

/-- `row['Entreprise/Commune'].replace(' ', '_').lower()`. -/
def safe_name (v : String) : String :=
  String.mk (pyLower (replaceCharAll v.data ' ' '_'))

/-- The output document name for a row: derived from the
`Entreprise/Commune` column when present and truthy (non-empty), otherwise
from the timestamp and the row index. -/
def wordFilename (row : List (String × String)) (ts : String) (index : Nat) :
    String :=
  match (row.find? (fun p => p.1 == "Entreprise/Commune")).map Prod.snd with
  | some v =>
    if v ≠ "" then "diagnostic_" ++ safe_name v ++ ".docx"
    else "diagnostic_" ++ ts ++ "_" ++ toString index ++ ".docx"
  | none => "diagnostic_" ++ ts ++ "_" ++ toString index ++ ".docx"

/-- What the pipeline did for one row. -/
structure RowTrace where
  filename : String
  filled : Bool
  putCalled : Bool
deriving DecidableEq

/-- One iteration of the row loop: derive the name; if
`check_file_exists_on_sharepoint` reports it, skip the row entirely
(`continue` before any filling); otherwise fill, and upload exactly when the
fill returned a path.  `exists_` abstracts the SharePoint existence check and
`createOk` whether `create_word_from_template` returned a path. -/
def processRow (exists_ : String → Bool) (createOk : Bool)
    (row : List (String × String)) (ts : String) (index : Nat) : RowTrace :=
  let name := wordFilename row ts index
  if exists_ name then ⟨name, false, false⟩
  else ⟨name, true, createOk⟩

/-! ## Material for the non-termination analysis of the placeholder loop

With key `k`, token `${k}` and replacement value `}}${k${k` (which does not
contain the token), the run text `${k}}` makes the `while` loop run forever:
the reachable texts all have the form `}^j ${k${k} ( ${k )^m` or
`}^j ${k}} ( ${k )^m`, each contains the token, and one replacement step
maps each family into the other. -/

/-- The token `${k}`. -/
def tokK : List Char := token "k"

/-- The replacement value `}}${k${k`. -/
def valK : List Char := "\x7d\x7d$\x7bk$\x7bk".data

/-- The three characters `${k`. -/
def chunkA : List Char := ['$', '\x7b', 'k']

/-- `m` copies of `${k`. -/
def repA : Nat → List Char
  | 0 => []
  | m + 1 => chunkA ++ repA m

/-- `${k${k}` followed by `m` copies of `${k`. -/
def core1 (m : Nat) : List Char :=
  '$' :: '\x7b' :: 'k' :: '$' :: '\x7b' :: 'k' :: '\x7d' :: repA m

/-- `${k}}` followed by `m` copies of `${k`. -/
def core2 (m : Nat) : List Char :=
  '$' :: '\x7b' :: 'k' :: '\x7d' :: '\x7d' :: repA m

/-- `j` closing braces, then `core1 m`. -/
def shape1 (j m : Nat) : List Char := List.replicate j '\x7d' ++ core1 m

/-- `j` closing braces, then `core2 m`. -/
def shape2 (j m : Nat) : List Char := List.replicate j '\x7d' ++ core2 m

end SharepointUtils

namespace SharepointUtils

/-! # Helper lemmas -/

/-- `splitFirst` recovers the decomposition at the occurrence it found. -/
theorem splitFirst_some_append (p : List Char) :
    ∀ t a b, splitFirst p t = some (a, b) → t = a ++ p ++ b := by
  intro t
  induction t with
  | nil =>
    intro a b h
    by_cases hp : p.isPrefixOf ([] : List Char)
    · have hpnil : p = [] := by
        cases p with
        | nil => rfl
        | cons c cs => simp [List.isPrefixOf] at hp
      rw [splitFirst, if_pos hp] at h
      obtain ⟨ha, hb⟩ := Prod.mk.injEq .. ▸ Option.some.injEq .. ▸ h
      subst hpnil; subst ha; subst hb; rfl
    · rw [splitFirst, if_neg hp] at h
      cases h
  | cons c t ih =>
    intro a b h
    by_cases hp : p.isPrefixOf (c :: t)
    · rw [splitFirst, if_pos hp] at h
      obtain ⟨s, hs⟩ := List.isPrefixOf_iff_prefix.mp hp
      have hdrop : (c :: t).drop p.length = s := by
        rw [← hs, List.drop_left]
      obtain ⟨ha, hb⟩ := Prod.mk.injEq .. ▸ Option.some.injEq .. ▸ h
      subst ha
      rw [hdrop] at hb
      subst hb
      simpa using hs.symm
    · rw [splitFirst, if_neg hp] at h
      cases hsub : splitFirst p t with
      | none => rw [hsub] at h; cases h
      | some ab =>
        obtain ⟨a', b'⟩ := ab
        rw [hsub] at h
        obtain ⟨ha, hb⟩ := Prod.mk.injEq .. ▸ Option.some.injEq .. ▸ h
        subst ha; subst hb
        have := ih a' b' hsub
        simp [this]

/-- `splitFirst` returns the *first* occurrence: any other decomposition has
a prefix at least as long. -/
theorem splitFirst_minimal (p : List Char) :
    ∀ t a b, splitFirst p t = some (a, b) →
      ∀ a' b', t = a' ++ p ++ b' → a.length ≤ a'.length := by
  intro t
  induction t with
  | nil =>
    intro a b h a' b' he
    by_cases hp : p.isPrefixOf ([] : List Char)
    · rw [splitFirst, if_pos hp] at h
      obtain ⟨ha, hb⟩ := Prod.mk.injEq .. ▸ Option.some.injEq .. ▸ h
      subst ha
      simp
    · rw [splitFirst, if_neg hp] at h
      cases h
  | cons c t ih =>
    intro a b h a' b' he
    by_cases hp : p.isPrefixOf (c :: t)
    · rw [splitFirst, if_pos hp] at h
      obtain ⟨ha, hb⟩ := Prod.mk.injEq .. ▸ Option.some.injEq .. ▸ h
      subst ha
      simp
    · rw [splitFirst, if_neg hp] at h
      cases hsub : splitFirst p t with
      | none => rw [hsub] at h; cases h
      | some ab =>
        obtain ⟨a₀, b₀⟩ := ab
        rw [hsub] at h
        obtain ⟨ha, hb⟩ := Prod.mk.injEq .. ▸ Option.some.injEq .. ▸ h
        subst ha
        cases a' with
        | nil =>
          exfalso
          apply hp
          apply List.isPrefixOf_iff_prefix.mpr
          exact ⟨b', by simpa using he.symm⟩
        | cons c' a'' =>
          have h2 : c = c' ∧ t = a'' ++ (p ++ b') := by
            simpa [List.cons_append, List.append_assoc] using he
          have := ih a₀ b₀ hsub a'' b' (by simp [List.append_assoc, ← h2.2])
          simpa using Nat.succ_le_succ this

/-- If `splitFirst` finds nothing, the pattern does not occur at all. -/
theorem splitFirst_none_no_occurrence (p : List Char) :
    ∀ t, splitFirst p t = none → ∀ a b, t ≠ a ++ p ++ b := by
  intro t
  induction t with
  | nil =>
    intro h a b he
    have h3 := he.symm
    rw [List.append_assoc] at h3
    rcases List.append_eq_nil.mp h3 with ⟨ha, hpb⟩
    rcases List.append_eq_nil.mp hpb with ⟨hp0, hb⟩
    subst hp0
    rw [splitFirst] at h
    simp [List.isPrefixOf] at h
  | cons c t ih =>
    intro h a b he
    by_cases hp : p.isPrefixOf (c :: t)
    · rw [splitFirst, if_pos hp] at h
      cases h
    · rw [splitFirst, if_neg hp] at h
      cases hsub : splitFirst p t with
      | some ab => rw [hsub] at h; obtain ⟨x, y⟩ := ab; cases h
      | none =>
        cases a with
        | nil =>
          apply hp
          apply List.isPrefixOf_iff_prefix.mpr
          exact ⟨b, by simpa using he.symm⟩
        | cons c' a'' =>
          have h2 : c = c' ∧ t = a'' ++ (p ++ b) := by
            simpa [List.cons_append, List.append_assoc] using he
          exact ih hsub a'' b (by simp [List.append_assoc, ← h2.2])

/-- Unfolding step of the `while` loop when the token occurs. -/
theorem processKeyFuel_step (p v a b t : List Char) (n : Nat)
    (h : splitFirst p t = some (a, b)) :
    processKeyFuel p v (n + 1) t = processKeyFuel p v n (a ++ v ++ b) := by
  rw [processKeyFuel, h]

/-- When the loop exits, no occurrence of the token remains. -/
theorem processKey_no_token_left (p v : List Char) :
    ∀ fuel t r, processKeyFuel p v fuel t = some r → splitFirst p r = none := by
  intro fuel
  induction fuel with
  | zero =>
    intro t r h
    cases hs : splitFirst p t with
    | none => rw [processKeyFuel, hs] at h; cases h; exact hs
    | some ab => obtain ⟨a, b⟩ := ab; rw [processKeyFuel, hs] at h; cases h
  | succ n ih =>
    intro t r h
    cases hs : splitFirst p t with
    | none => rw [processKeyFuel, hs] at h; cases h; exact hs
    | some ab =>
      obtain ⟨a, b⟩ := ab
      rw [processKeyFuel, hs] at h
      exact ih _ r h

/-- Totality of one key's loop when the replacement is shorter than the
token: each replacement strictly shrinks the text. -/
theorem processKey_some_of_short (p v : List Char) (hlen : v.length < p.length) :
    ∀ n t, t.length ≤ n → ∃ fuel r, processKeyFuel p v fuel t = some r := by
  intro n
  induction n with
  | zero =>
    intro t ht
    cases hs : splitFirst p t with
    | none => exact ⟨0, t, by rw [processKeyFuel, hs]⟩
    | some ab =>
      obtain ⟨a, b⟩ := ab
      exfalso
      have heq := splitFirst_some_append p t a b hs
      have hlt : t.length = a.length + p.length + b.length := by
        rw [heq, List.length_append, List.length_append]
      omega
  | succ n ih =>
    intro t ht
    cases hs : splitFirst p t with
    | none => exact ⟨0, t, by rw [processKeyFuel, hs]⟩
    | some ab =>
      obtain ⟨a, b⟩ := ab
      have heq := splitFirst_some_append p t a b hs
      have hlen2 : (a ++ v ++ b).length ≤ n := by
        have h1 : t.length = a.length + p.length + b.length := by
          rw [heq, List.length_append, List.length_append]
        have h2 : (a ++ v ++ b).length = a.length + v.length + b.length := by
          rw [List.length_append, List.length_append]
        omega
      obtain ⟨fuel, r, hr⟩ := ih (a ++ v ++ b) hlen2
      exact ⟨fuel + 1, r, by rw [processKeyFuel, hs]; exact hr⟩

/-! ### The divergent instance -/

/-- `splitFirst` for `${k}` skips over a leading closing brace. -/
theorem splitFirst_tokK_brace (s : List Char) :
    splitFirst tokK ('\x7d' :: s) =
      match splitFirst tokK s with
      | some (a, b) => some ('\x7d' :: a, b)
      | none => none := rfl

/-- `splitFirst` for `${k}` skips over any number of leading closing
braces. -/
theorem splitFirst_tokK_replicate (j : Nat) (t a b : List Char)
    (h : splitFirst tokK t = some (a, b)) :
    splitFirst tokK (List.replicate j '\x7d' ++ t) =
      some (List.replicate j '\x7d' ++ a, b) := by
  induction j with
  | zero => simpa using h
  | succ i ih =>
    rw [List.replicate_succ, List.cons_append, splitFirst_tokK_brace, ih]
    simp

/-- First occurrence of the token in `core1 m`. -/
theorem splitFirst_core1 (m : Nat) :
    splitFirst tokK (core1 m) = some (chunkA, repA m) := by
  simp [core1, tokK, token, chunkA, splitFirst, List.isPrefixOf]

/-- First occurrence of the token in `core2 m`. -/
theorem splitFirst_core2 (m : Nat) :
    splitFirst tokK (core2 m) = some ([], '\x7d' :: repA m) := by
  simp [core2, tokK, token, splitFirst, List.isPrefixOf]

/-- One replacement step sends `shape1 j m` to `shape2 j (m + 2)`. -/
theorem shape1_step (j m : Nat) :
    (List.replicate j '\x7d' ++ chunkA) ++ valK ++ repA m = shape2 j (m + 2) := by
  show List.replicate j '\x7d' ++ chunkA ++ valK ++ repA m =
    List.replicate j '\x7d' ++ core2 (m + 2)
  simp only [List.append_assoc]
  congr 1

/-- One replacement step sends `shape2 j m` to `shape1 (j + 2) m`. -/
theorem shape2_step (j m : Nat) :
    List.replicate j '\x7d' ++ valK ++ ('\x7d' :: repA m) = shape1 (j + 2) m := by
  show List.replicate j '\x7d' ++ valK ++ ('\x7d' :: repA m) =
    List.replicate (j + 2) '\x7d' ++ core1 m
  rw [List.replicate_add]
  simp only [List.append_assoc]
  congr 1

/-- Every reachable text of the divergent instance keeps an occurrence of
the token: the loop never exits, whatever the fuel. -/
theorem inv_no_terminate :
    ∀ fuel t, (∃ j m, t = shape1 j m ∨ t = shape2 j m) →
      processKeyFuel tokK valK fuel t = none := by
  intro fuel
  induction fuel with
  | zero =>
    rintro t ⟨j, m, h | h⟩ <;> subst h
    · rw [processKeyFuel, shape1,
        splitFirst_tokK_replicate j (core1 m) chunkA (repA m) (splitFirst_core1 m)]
    · rw [processKeyFuel, shape2,
        splitFirst_tokK_replicate j (core2 m) [] ('\x7d' :: repA m) (splitFirst_core2 m)]
  | succ n ih =>
    rintro t ⟨j, m, h | h⟩ <;> subst h
    · rw [processKeyFuel, shape1,
        splitFirst_tokK_replicate j (core1 m) chunkA (repA m) (splitFirst_core1 m)]
      show processKeyFuel tokK valK n
        ((List.replicate j '\x7d' ++ chunkA) ++ valK ++ repA m) = none
      rw [shape1_step j m]
      exact ih _ ⟨j, m + 2, Or.inr rfl⟩
    · rw [processKeyFuel, shape2,
        splitFirst_tokK_replicate j (core2 m) [] ('\x7d' :: repA m) (splitFirst_core2 m)]
      show processKeyFuel tokK valK n
        ((List.replicate j '\x7d' ++ []) ++ valK ++ ('\x7d' :: repA m)) = none
      rw [List.append_nil, shape2_step j m]
      exact ih _ ⟨j + 2, m, Or.inl rfl⟩

/-! # Claim theorems -/

set_option maxRecDepth 100000 in
/-- Claim C1, counterexample: `normalize_string` does *not* apply the listed
steps to every input value.  A non-string value whose string representation
is `"3.5"` (for instance the float `3.5` appearing as an Excel column
header) is returned as `"3.5"`, while coercing to a string and then applying
the steps — as the claim states — replaces the punctuation `'.'` by a space
and yields `"3 5"`. -/
theorem normalize_string_nonstring_cex :
    normalize_string (.other "3.5") = "3.5" ∧
    normalizeClaim (.other "3.5") = "3 5" ∧
    normalize_string (.other "3.5") ≠ normalizeClaim (.other "3.5") := by
  refine ⟨rfl, by decide, by decide⟩

set_option maxRecDepth 100000 in
/-- Claim C1, amended: for every *string* input, `normalize_string` applies
exactly the listed steps in order (decompose and drop non-ASCII, lower-case,
punctuation to spaces, collapse whitespace, trim) and never fails — it is a
total function; a *non-string* input is coerced via its string
representation and only lower-cased, skipping the other steps.  In
particular the three example inputs all yield the key
`"entreprise commune"`. -/
theorem normalize_string_amended :
    (∀ s : String, normalize_string (.str s) = normalizeClaim (.str s)) ∧
    (∀ r : String, normalize_string (.other r) = String.mk (pyLower r.data)) ∧
    normalize_string (.str "Entreprise/Commune") = "entreprise commune" ∧
    normalize_string (.str "entreprise   commune") = "entreprise commune" ∧
    normalize_string (.str "ENTREPRISE-COMMUNE") = "entreprise commune" := by
  refine ⟨fun s => rfl, fun r => rfl, by decide, by decide, by decide⟩

set_option maxRecDepth 100000 in
/-- Claim C2, counterexample: `"2024-03-05\t10:00:00"` does not match the
claim's structural pattern (position 10 is a tab, not a space), so by the
claim it must be returned unchanged; the code's `\s` accepts the tab and the
value *is* re-rendered, to `"05-03-2024"`. -/
theorem format_date_tab_cex :
    specDatePattern "2024-03-05\t10:00:00".data = false ∧
    format_date "2024-03-05\t10:00:00" = "05-03-2024" ∧
    format_date "2024-03-05\t10:00:00" ≠ "2024-03-05\t10:00:00" := by
  refine ⟨by decide, by decide, by decide⟩

set_option maxRecDepth 100000 in
/-- Claim C2, amended: `format_date` re-renders as `DD-MM-YYYY` exactly the
values that match the structural pattern with a *whitespace* character
(not only a space) between date and time and parse as a valid calendar
timestamp; on a structural match whose parse fails, and on any non-matching
value, the input is returned unchanged and no error escapes.
`format_date "2024-03-05 10:00:00" = "05-03-2024"`,
`format_date "not-a-date" = "not-a-date"`, and the structurally matching but
semantically invalid `"2024-13-99 99:99:99"` is returned unchanged. -/
theorem format_date_amended :
    (∀ s : String, matchesDatePattern s.data = false → format_date s = s) ∧
    (∀ s : String, strptimeYMDHMS s.data = none → format_date s = s) ∧
    (∀ (s : String) (y mo d h mi se : Nat),
      matchesDatePattern s.data = true →
      strptimeYMDHMS s.data = some (y, mo, d, h, mi, se) →
      format_date s = String.mk (renderDMY y mo d)) ∧
    format_date "2024-03-05 10:00:00" = "05-03-2024" ∧
    format_date "not-a-date" = "not-a-date" ∧
    format_date "2024-13-99 99:99:99" = "2024-13-99 99:99:99" ∧
    format_date "2024-03-05\t10:00:00" = "05-03-2024" := by
  refine ⟨?_, ?_, ?_, by decide, by decide, by decide, by decide⟩
  · intro s h
    rw [format_date, if_neg (by simp [h])]
  · intro s h
    rw [format_date]
    split
    · rw [h]
    · rfl
  · intro s y mo d h mi se h1 h2
    rw [format_date, if_pos h1, h2]

/-- Claim C2, amended theorem, witness: the general clauses instantiated at
concrete inputs. -/
theorem format_date_amended_witness :
    format_date "x" = "x" ∧ format_date "2024-13-99 99:99:99" = "2024-13-99 99:99:99" ∧
    format_date "2024-03-05 10:00:00" = String.mk (renderDMY 2024 3 5) :=
  ⟨format_date_amended.1 "x" (by decide),
   format_date_amended.2.1 "2024-13-99 99:99:99" (by decide),
   format_date_amended.2.2.1 "2024-03-05 10:00:00" 2024 3 5 10 0 0
     (by decide) (by decide)⟩

set_option maxRecDepth 100000 in
/-- Claim C3: placeholder replacement matches the token `${key}` literally
against the original (non-normalized) column name.  Per iteration, the first
remaining occurrence is replaced by the formatted value (the loop equation
and the minimality of the split), and when the loop exits no occurrence
remains.  Concretely: `"${name} and ${name} again"` with `name = "X"`
becomes `"X and X again"`; a run `"${Email}"` is left untouched by a column
named `"email"` but replaced by a column named exactly `"Email"`; the
unmatched token stays as literal text. -/
theorem process_run_spec :
    (∀ p v n t a b, splitFirst p t = some (a, b) →
      t = a ++ p ++ b ∧
      (∀ a' b', t = a' ++ p ++ b' → a.length ≤ a'.length) ∧
      processKeyFuel p v (n + 1) t = processKeyFuel p v n (a ++ v ++ b)) ∧
    (∀ p v fuel t r, processKeyFuel p v fuel t = some r →
      ∀ a b, r ≠ a ++ p ++ b) ∧
    process_run 5 [("name", "X")] "$\x7bname\x7d and $\x7bname\x7d again".data
      = some "X and X again".data ∧
    process_run 5 [("email", "X")] "$\x7bEmail\x7d".data
      = some "$\x7bEmail\x7d".data ∧
    process_run 5 [("Email", "X")] "$\x7bEmail\x7d".data = some "X".data := by
  refine ⟨?_, ?_, by decide, by decide, by decide⟩
  · intro p v n t a b h
    exact ⟨splitFirst_some_append p t a b h, splitFirst_minimal p t a b h,
      processKeyFuel_step p v a b t n h⟩
  · intro p v fuel t r h
    exact splitFirst_none_no_occurrence p r (processKey_no_token_left p v fuel t r h)

set_option maxRecDepth 100000 in
/-- Claim C3, witness: the general clauses instantiated on the run `"${k}"`
with value `"y"`. -/
theorem process_run_spec_witness :
    ("$\x7bk\x7d".data = [] ++ token "k" ++ [] ∧
      (∀ a' b', "$\x7bk\x7d".data = a' ++ token "k" ++ b' →
        ([] : List Char).length ≤ a'.length) ∧
      processKeyFuel (token "k") ['y'] 1 "$\x7bk\x7d".data
        = processKeyFuel (token "k") ['y'] 0 ([] ++ ['y'] ++ [])) ∧
    (∀ a b, ['y'] ≠ a ++ token "k" ++ b) :=
  ⟨process_run_spec.1 (token "k") ['y'] 0 "$\x7bk\x7d".data [] [] (by decide),
   process_run_spec.2.1 (token "k") ['y'] 1 "$\x7bk\x7d".data ['y'] (by decide)⟩

set_option maxRecDepth 100000 in
/-- Claim C10, counterexample: the stated precondition does not make the
loop total.  For column `k`, the raw value `"}}${k${k"` formats to itself
and does not contain the token `${k}` (first conjunct), yet on the run text
`"${k}}"` the `while` loop never exits: no amount of fuel reaches a
token-free text. -/
theorem process_run_divergence_cex :
    splitFirst (token "k") (format_date "\x7d\x7d$\x7bk$\x7bk").data = none ∧
    ¬ processRunTerminates (token "k") (format_date "\x7d\x7d$\x7bk$\x7bk").data
        "$\x7bk\x7d\x7d".data := by
  constructor
  · decide
  · rintro ⟨fuel, r, hr⟩
    have h0 : token "k" = tokK := rfl
    have h1 : (format_date "\x7d\x7d$\x7bk$\x7bk").data = valK := by decide
    have h2 : ("$\x7bk\x7d\x7d").data = shape2 0 0 := by decide
    rw [h0, h1, h2] at hr
    rw [inv_no_terminate fuel (shape2 0 0) ⟨0, 0, Or.inr rfl⟩] at hr
    cases hr

/-- Claim C10, amended: the replacement loop *is* total whenever the
formatted value is strictly shorter than the token `${key}` — then every
iteration strictly decreases the length of the run text.  (The claim's own
precondition, that the value not contain the token, does not suffice, and an
iteration need not decrease the number of occurrences.) -/
theorem process_run_total_of_short_value (p v t : List Char)
    (h : v.length < p.length) : processRunTerminates p v t :=
  processKey_some_of_short p v h t.length t (Nat.le_refl _)

/-- Claim C10, amended theorem, witness. -/
theorem process_run_total_of_short_value_witness :
    processRunTerminates (token "k") [] ['x'] :=
  process_run_total_of_short_value (token "k") [] ['x'] (by decide)

/-- The normalized key table resolves a query to the *last* column (in row
order) whose normalization equals it: assignment into a Python dict
overwrites, so the later column silently wins. -/
theorem dictLookup_buildNormalizedKeys (keys : List String) (q : String) :
    dictLookup (buildNormalizedKeys keys) q =
      (keys.filter (fun k => normalizeStr k == q)).getLast? := by
  induction keys with
  | nil => rfl
  | cons k ks ih =>
    show (match dictLookup (buildNormalizedKeys ks) q with
      | some r => some r
      | none => if (normalizeStr k == q) = true then some k else none)
      = ((k :: ks).filter (fun x => normalizeStr x == q)).getLast?
    rw [ih, List.filter_cons]
    by_cases hp : (normalizeStr k == q) = true
    · rw [if_pos hp, if_pos hp]
      cases hf : ks.filter (fun x => normalizeStr x == q) with
      | nil => simp
      | cons x xs =>
        rw [List.getLast?_cons_cons]
        cases h2 : (x :: xs).getLast? with
        | none => exact absurd (List.getLast?_eq_none_iff.mp h2) (by simp)
        | some r => simp
    · rw [if_neg hp, if_neg hp]
      cases h2 : (ks.filter (fun x => normalizeStr x == q)).getLast? <;> simp

set_option maxRecDepth 100000 in
/-- Claim C5: the normalized key table is a pure function of the row's
column names (it is rebuilt from them on every call of
`create_word_from_template`), and when two columns normalize to the same
key, the later one in row order silently wins: lookup returns the last
matching column and never raises, and the earlier column becomes unreachable
through the table.  Concretely, with columns `["Email", "EMAIL"]` (both
normalizing to `"email"`), lookup yields `"EMAIL"` and no query can return
`"Email"`. -/
theorem normalized_keys_later_wins :
    (∀ keys q, dictLookup (buildNormalizedKeys keys) q
      = (keys.filter (fun k => normalizeStr k == q)).getLast?) ∧
    dictLookup (buildNormalizedKeys ["Email", "EMAIL"]) "email" = some "EMAIL" ∧
    (∀ q v, dictLookup (buildNormalizedKeys ["Email", "EMAIL"]) q = some v →
      v = "EMAIL") := by
  refine ⟨dictLookup_buildNormalizedKeys, by decide, ?_⟩
  intro q v h
  have hb : buildNormalizedKeys ["Email", "EMAIL"]
      = [("email", "Email"), ("email", "EMAIL")] := by decide
  rw [hb] at h
  by_cases hq : (("email" : String) == q) = true
  · simp [dictLookup, hq] at h
    exact h.symm
  · simp [dictLookup, hq] at h

set_option maxRecDepth 100000 in
/-- Claim C5, witness: the unreachability clause instantiated at the query
`"email"`. -/
theorem normalized_keys_later_wins_witness : ("EMAIL" : String) = "EMAIL" :=
  normalized_keys_later_wins.2.2 "email" "EMAIL"
    (by rw [normalized_keys_later_wins.1]; decide)

set_option maxRecDepth 100000 in
/-- Claim C4: a form field resolves its tag through key normalization and,
when resolved, exactly the first text run inside the node is overwritten
with the formatted value, later runs being preserved; every field sharing
the same resolved column is filled independently from the same value; a
field with no tag, an unresolved tag, or zero text runs is left untouched
and causes no error.  The concrete pass shows a field tagged `"Email "`
bound to the column `"email"`, two fields resolving to the same column each
filled, and unresolved, untagged and text-less fields preserved. -/
theorem formfield_merge_spec :
    (∀ row nk sdt tg orig t0 ts, sdt.tag = some tg →
      dictLookup nk (normalizeStr tg) = some orig →
      sdt.texts = t0 :: ts →
      fillSdt row nk sdt = ⟨some tg, format_date (pyGet row orig) :: ts⟩) ∧
    (∀ row nk sdt, sdt.tag = none → fillSdt row nk sdt = sdt) ∧
    (∀ row nk sdt tg, sdt.tag = some tg →
      dictLookup nk (normalizeStr tg) = none → fillSdt row nk sdt = sdt) ∧
    (∀ row nk sdt, sdt.texts = [] → fillSdt row nk sdt = sdt) ∧
    formFieldPass [("email", "a@b.fr")] (buildNormalizedKeys ["email"])
      (fun _ => false)
      [⟨some "Email ", ["x", "y"]⟩, ⟨some "email", ["z"]⟩, ⟨some "Autre", ["w"]⟩,
       ⟨none, ["v"]⟩, ⟨some "Email ", []⟩]
      = [⟨some "Email ", ["a@b.fr", "y"]⟩, ⟨some "email", ["a@b.fr"]⟩,
         ⟨some "Autre", ["w"]⟩, ⟨none, ["v"]⟩, ⟨some "Email ", []⟩] := by
  refine ⟨?_, ?_, ?_, ?_, by decide⟩
  · intro row nk sdt tg orig t0 ts h1 h2 h3
    obtain ⟨otag, otexts⟩ := sdt
    simp only at h1 h3
    subst h1; subst h3
    simp [fillSdt, h2]
  · intro row nk sdt h1
    obtain ⟨otag, otexts⟩ := sdt
    simp only at h1
    subst h1
    rfl
  · intro row nk sdt tg h1 h2
    obtain ⟨otag, otexts⟩ := sdt
    simp only at h1
    subst h1
    simp [fillSdt, h2]
  · intro row nk sdt h1
    obtain ⟨otag, otexts⟩ := sdt
    simp only at h1
    subst h1
    rcases otag with _ | tg
    · rfl
    · cases h2 : dictLookup nk (normalizeStr tg) <;> simp [fillSdt, h2]

set_option maxRecDepth 100000 in
/-- Claim C4, witness: the overwrite clause instantiated on a concrete
field. -/
theorem formfield_merge_spec_witness :
    fillSdt [("email", "a@b.fr")] (buildNormalizedKeys ["email"])
      ⟨some "Email ", ["x", "y"]⟩
      = ⟨some "Email ",
          format_date (pyGet [("email", "a@b.fr")] "email") :: ["y"]⟩ :=
  formfield_merge_spec.1 [("email", "a@b.fr")] (buildNormalizedKeys ["email"])
    ⟨some "Email ", ["x", "y"]⟩ "Email " "email" "x" ["y"] rfl (by decide) rfl

set_option maxRecDepth 100000 in
/-- Claim C7, counterexample: the `try`/`except` wraps a whole merge pass,
so a failure at one marker *does* abort the merging of the markers after it.
With two form fields where processing the first raises (fault oracle) and
the second would succeed, the pass leaves the second untouched — its own
processing succeeds (second conjunct) yet it is not filled. -/
theorem merge_pass_fault_cex :
    formFieldPass [("email", "X")] (buildNormalizedKeys ["email"])
      (fun i => i == 0)
      [⟨some "zz", ["t"]⟩, ⟨some "Email ", ["old"]⟩]
      = [⟨some "zz", ["t"]⟩, ⟨some "Email ", ["old"]⟩] ∧
    fillSdt [("email", "X")] (buildNormalizedKeys ["email"])
      ⟨some "Email ", ["old"]⟩ = ⟨some "Email ", ["X"]⟩ := by
  exact ⟨by decide, by decide⟩

/-- Claim C7, amended: failures inside a merge pass are caught per *pass*:
a failure at one marker aborts the processing of that marker and of every
later marker of the same pass (markers before it keep their filled values),
but never escapes the pass — the other pass still runs and the document is
still saved, and without any fault the pass fills every marker; only total
engine failure is fatal for the row. -/
theorem merge_pass_fault_amended :
    (∀ row nk faults i sdts,
      (∀ j, j < sdts.length → faults (i + j) = false) →
      formFieldLoop row nk faults i sdts = sdts.map (fillSdt row nk)) ∧
    (∀ row nk faults k,
      ∀ i sdts, (∀ j, j < k → faults (i + j) = false) → faults (i + k) = true →
      k < sdts.length →
      formFieldLoop row nk faults i sdts
        = (sdts.take k).map (fillSdt row nk) ++ sdts.drop k) ∧
    (∀ doc row f1 fuel, ∃ d,
      create_word_from_template true doc row f1 (fun _ => true) fuel
        = (some d, some d)) := by
  refine ⟨?_, ?_, ?_⟩
  · intro row nk faults i sdts
    induction sdts generalizing i with
    | nil => intro _; rfl
    | cons s ss ih =>
      intro h
      have h0 : faults i = false := by simpa using h 0 (by simp)
      rw [formFieldLoop, if_neg (by simp [h0])]
      rw [List.map_cons]
      congr 1
      apply ih
      intro j hj
      have := h (j + 1) (by simpa using Nat.succ_lt_succ hj)
      rwa [show i + (j + 1) = i + 1 + j by omega] at this
  · intro row nk faults k
    induction k with
    | zero =>
      intro i sdts _ hk hlen
      cases sdts with
      | nil => simp at hlen
      | cons s ss =>
        rw [formFieldLoop, if_pos (by simpa using hk)]
        simp
    | succ n ih =>
      intro i sdts h hk hlen
      cases sdts with
      | nil => simp at hlen
      | cons s ss =>
        have h0 : faults i = false := by simpa using h 0 (by omega)
        rw [formFieldLoop, if_neg (by simp [h0])]
        have hrec := ih (i + 1) ss
          (fun j hj => by
            have := h (j + 1) (by omega)
            rwa [show i + (j + 1) = i + 1 + j by omega] at this)
          (by rwa [show i + 1 + n = i + (n + 1) by omega])
          (by simpa using Nat.lt_of_succ_lt_succ hlen)
        rw [hrec]
        simp
  · intro doc row f1 fuel
    cases hr : doc.runs with
    | nil =>
      refine ⟨⟨formFieldPass row (buildNormalizedKeys (row.map Prod.fst)) f1 doc.sdts, []⟩, ?_⟩
      simp [create_word_from_template, runsLoop, hr]
    | cons r rest =>
      refine ⟨⟨formFieldPass row (buildNormalizedKeys (row.map Prod.fst)) f1 doc.sdts, r :: rest⟩, ?_⟩
      simp [create_word_from_template, runsLoop, hr]

set_option maxRecDepth 100000 in
/-- Claim C7, amended theorem, witness: both loop clauses instantiated on a
two-field pass with a fault at index 1, and the engine clause on a concrete
document. -/
theorem merge_pass_fault_amended_witness :
    formFieldLoop [("email", "X")] (buildNormalizedKeys ["email"])
      (fun i => i == 1) 0 [⟨some "email", ["a"]⟩, ⟨some "email", ["b"]⟩]
      = ([⟨some "email", ["a"]⟩].map
          (fillSdt [("email", "X")] (buildNormalizedKeys ["email"])))
        ++ [(⟨some "email", ["b"]⟩ : Sdt)] ∧
    ∃ d, create_word_from_template true ⟨[], []⟩ [] (fun _ => false)
      (fun _ => true) 0 = (some d, some d) := by
  constructor
  · have := merge_pass_fault_amended.2.1 [("email", "X")]
      (buildNormalizedKeys ["email"]) (fun i => i == 1) 1 0
      [⟨some "email", ["a"]⟩, ⟨some "email", ["b"]⟩]
      (by decide) (by decide) (by decide)
    simpa using this
  · exact merge_pass_fault_amended.2.2 ⟨[], []⟩ [] (fun _ => false) 0

/-- Claim C6: a missing template path makes `create_word_from_template`
return the failure value (`None`) without any unhandled error and without
writing any output file; and anything that *is* written is exactly the
document obtained after the form-field pass and then the placeholder pass
have both completed — the save runs only after both passes, so no
partially-merged intermediate state is ever written as a row's result. -/
theorem create_word_save_spec :
    (∀ doc row f1 f2 fuel,
      create_word_from_template false doc row f1 f2 fuel = (none, none)) ∧
    (∀ te doc row f1 f2 fuel d,
      (create_word_from_template te doc row f1 f2 fuel).2 = some d →
      te = true ∧
      (create_word_from_template te doc row f1 f2 fuel).1 = some d ∧
      ∃ runs1, runsLoop row f2 fuel 0 doc.runs = some runs1 ∧
        d = ⟨formFieldPass row (buildNormalizedKeys (row.map Prod.fst)) f1
              doc.sdts, runs1⟩) := by
  refine ⟨fun doc row f1 f2 fuel => rfl, ?_⟩
  intro te doc row f1 f2 fuel d h
  cases te with
  | false => simp [create_word_from_template] at h
  | true =>
    refine ⟨rfl, ?_⟩
    simp only [create_word_from_template] at h ⊢
    cases hr : runsLoop row f2 fuel 0 doc.runs with
    | none => rw [hr] at h; simp at h
    | some runs1 =>
      rw [hr] at h
      simp at h
      subst h
      exact ⟨by simp, runs1, rfl, rfl⟩

/-- Claim C6, witness: the save clause instantiated on a concrete call. -/
theorem create_word_save_spec_witness :
    true = true ∧
    (create_word_from_template true ⟨[], []⟩ [] (fun _ => false)
      (fun _ => false) 0).1 = some ⟨[], []⟩ ∧
    ∃ runs1, runsLoop [] (fun _ => false) 0 0 [] = some runs1 ∧
      (⟨[], []⟩ : Doc) = ⟨formFieldPass [] (buildNormalizedKeys
        (([] : List (String × String)).map Prod.fst)) (fun _ => false) [],
        runs1⟩ :=
  create_word_save_spec.2 true ⟨[], []⟩ [] (fun _ => false) (fun _ => false)
    0 ⟨[], []⟩ rfl

set_option maxRecDepth 100000 in
/-- Claim C8: the output name is derived deterministically from the row —
`diagnostic_` + the `Entreprise/Commune` value with spaces replaced by
underscores and lower-cased + `.docx` when that column is present and
non-empty, and `diagnostic_` + timestamp + `_` + row index + `.docx`
otherwise; the pipeline skips filling and publishing entirely when
`exists(name)` is true, and `put` is called only when it is false. -/
theorem pipeline_naming_spec :
    (∀ row ts i v,
      (row.find? (fun p => p.1 == "Entreprise/Commune")).map Prod.snd = some v →
      v ≠ "" → wordFilename row ts i = "diagnostic_" ++ safe_name v ++ ".docx") ∧
    (∀ row ts i,
      (row.find? (fun p => p.1 == "Entreprise/Commune")).map Prod.snd = none →
      wordFilename row ts i
        = "diagnostic_" ++ ts ++ "_" ++ toString i ++ ".docx") ∧
    (∀ row ts i,
      (row.find? (fun p => p.1 == "Entreprise/Commune")).map Prod.snd = some "" →
      wordFilename row ts i
        = "diagnostic_" ++ ts ++ "_" ++ toString i ++ ".docx") ∧
    (∀ ex ok row ts i, ex (wordFilename row ts i) = true →
      processRow ex ok row ts i = ⟨wordFilename row ts i, false, false⟩) ∧
    (∀ ex ok row ts i, (processRow ex ok row ts i).putCalled = true →
      ex (wordFilename row ts i) = false) ∧
    wordFilename [("Entreprise/Commune", "Ma Ville")] "t" 0
      = "diagnostic_ma_ville.docx" := by
  refine ⟨?_, ?_, ?_, ?_, ?_, by decide⟩
  · intro row ts i v h hv
    simp [wordFilename, h, hv]
  · intro row ts i h
    simp [wordFilename, h]
  · intro row ts i h
    simp [wordFilename, h]
  · intro ex ok row ts i h
    simp [processRow, h]
  · intro ex ok row ts i h
    by_cases hex : ex (wordFilename row ts i) = true
    · simp [processRow, hex] at h
    · simpa using hex

set_option maxRecDepth 100000 in
/-- Claim C8, witness: the naming and skip clauses instantiated on concrete
rows. -/
theorem pipeline_naming_spec_witness :
    wordFilename [("Entreprise/Commune", "Ma Ville")] "t" 0
      = "diagnostic_" ++ safe_name "Ma Ville" ++ ".docx" ∧
    processRow (fun _ => true) true [("Entreprise/Commune", "Ma Ville")] "t" 0
      = ⟨wordFilename [("Entreprise/Commune", "Ma Ville")] "t" 0, false, false⟩ :=
  ⟨pipeline_naming_spec.1 [("Entreprise/Commune", "Ma Ville")] "t" 0 "Ma Ville"
     (by decide) (by decide),
   pipeline_naming_spec.2.2.2.1 (fun _ => true) true
     [("Entreprise/Commune", "Ma Ville")] "t" 0 rfl⟩

end SharepointUtils
